import Mathlib

/-!
Verification development for the ai-chat repository: a shallow embedding of
the streaming relay and context-management core (frontend context assembler,
Ollama line decoder, SSE chunk decoder, and the server chat service), with
theorems settling the specification's claims about them.
-/

namespace AiChat

/-! ## Definitions -/

/-! ### Frontend context assembler (src/utils/context.ts) -/

/-- Frontend `Mode` (src/types/index.ts): behavioral mode configuration. -/
structure Mode where
  id : String
  name : String
  systemPrompt : String
  contextLength : Nat
deriving DecidableEq, Repr

/-- Frontend `Message` (src/types/index.ts). -/
structure CMsg where
  id : String
  role : String
  content : String
deriving DecidableEq, Repr

/-- JavaScript `arr.slice(-n)` for a natural `n`: `slice(-0)` is `slice(0)`,
which returns the whole array; for `n > 0` it returns the last
`min(n, arr.length)` elements. -/
def jsSliceNeg (l : List α) (n : Nat) : List α :=
  if n = 0 then l else l.drop (l.length - n)

/-- The synthesized system message that `getContext` prepends. -/
def mkSystemMessage (mode : Mode) : CMsg :=
  { id := "system", role := "system", content := mode.systemPrompt }

/-- Function `getContext` from src/utils/context.ts: prepend the system message and
take `messages.slice(-mode.contextLength)`. -/
def getContext (messages : List CMsg) (mode : Mode) : List CMsg :=
  mkSystemMessage mode :: jsSliceNeg messages mode.contextLength

/-! ### A model of `JSON.parse` for the provider wire formats

The decoders call the platform `JSON.parse` on each candidate record.  We
model it with a small recursive-descent parser over the JSON grammar
(objects, arrays, strings with common escapes, integer/decimal number
tokens, booleans, null), failing on anything else — in particular on any
truncated record, exactly as `JSON.parse` throws on incomplete input. -/

/-- JSON values.  Number tokens are kept raw; the decoders only ever test
them for truthiness. -/
inductive Json where
  | null
  | bool (b : Bool)
  | num (raw : String)
  | str (s : String)
  | arr (xs : List Json)
  | obj (fields : List (String × Json))

/-- JSON insignificant whitespace. -/
def isWsChar (c : Char) : Bool :=
  c = ' ' ∨ c = '\n' ∨ c = '\t' ∨ c = '\r'

/-- Drop leading JSON whitespace. -/
def skipWs : List Char → List Char
  | [] => []
  | c :: rest => if isWsChar c then skipWs rest else c :: rest

/-- Parse the remainder of a JSON string literal (the opening quote already
consumed), handling the usual escapes; fails on an unterminated literal. -/
def parseStringRest : List Char → Option (String × List Char)
  | [] => none
  | '"' :: rest => some ("", rest)
  | '\\' :: rest =>
    match rest with
    | [] => none
    | e :: rest2 =>
      let esc : Option Char :=
        if e = '"' then some '"'
        else if e = '\\' then some '\\'
        else if e = '/' then some '/'
        else if e = 'n' then some '\n'
        else if e = 't' then some '\t'
        else if e = 'r' then some '\r'
        else none
      match esc with
      | none => none
      | some c =>
        match parseStringRest rest2 with
        | none => none
        | some (s, r) => some (String.mk (c :: s.data), r)
  | c :: rest =>
    match parseStringRest rest with
    | none => none
    | some (s, r) => some (String.mk (c :: s.data), r)

/-- Take a maximal run of decimal digits. -/
def takeDigits : List Char → List Char × List Char
  | [] => ([], [])
  | c :: rest =>
    if c.isDigit then
      let (d, r) := takeDigits rest
      (c :: d, r)
    else ([], c :: rest)

/-- Parse a JSON number token `-?digits(.digits)?`, kept raw. -/
def parseNumber (input : List Char) : Option (Json × List Char) :=
  let (neg, afterSign) :=
    match input with
    | '-' :: rest => (['-'], rest)
    | _ => (([] : List Char), input)
  match takeDigits afterSign with
  | ([], _) => none
  | (digits, rest) =>
    match rest with
    | '.' :: rest2 =>
      match takeDigits rest2 with
      | ([], _) => none
      | (frac, rest3) =>
        some (Json.num (String.mk (neg ++ digits ++ '.' :: frac)), rest3)
    | _ => some (Json.num (String.mk (neg ++ digits)), rest)

mutual

/-- Fueled JSON value parser. -/
def parseValue : Nat → List Char → Option (Json × List Char)
  | 0, _ => none
  | Nat.succ fuel, input =>
    match skipWs input with
    | [] => none
    | '"' :: rest =>
      match parseStringRest rest with
      | none => none
      | some (s, r) => some (Json.str s, r)
    | '\x7b' :: rest =>
      match skipWs rest with
      | '\x7d' :: r => some (Json.obj [], r)
      | r =>
        match parseFields fuel r with
        | none => none
        | some (fs, r2) => some (Json.obj fs, r2)
    | '[' :: rest =>
      match skipWs rest with
      | ']' :: r => some (Json.arr [], r)
      | r =>
        match parseItems fuel r with
        | none => none
        | some (xs, r2) => some (Json.arr xs, r2)
    | 't' :: 'r' :: 'u' :: 'e' :: rest => some (Json.bool true, rest)
    | 'f' :: 'a' :: 'l' :: 's' :: 'e' :: rest => some (Json.bool false, rest)
    | 'n' :: 'u' :: 'l' :: 'l' :: rest => some (Json.null, rest)
    | input2 => parseNumber input2

/-- Fueled parser for the members of a nonempty JSON object, up to and
including the closing brace. -/
def parseFields : Nat → List Char → Option (List (String × Json) × List Char)
  | 0, _ => none
  | Nat.succ fuel, input =>
    match skipWs input with
    | '"' :: rest =>
      match parseStringRest rest with
      | none => none
      | some (key, r1) =>
        match skipWs r1 with
        | ':' :: r2 =>
          match parseValue fuel r2 with
          | none => none
          | some (v, r3) =>
            match skipWs r3 with
            | ',' :: r4 =>
              match parseFields fuel r4 with
              | none => none
              | some (fs, r5) => some ((key, v) :: fs, r5)
            | '\x7d' :: r4 => some ([(key, v)], r4)
            | _ => none
        | _ => none
    | _ => none

/-- Fueled parser for the items of a nonempty JSON array, up to and
including the closing bracket. -/
def parseItems : Nat → List Char → Option (List Json × List Char)
  | 0, _ => none
  | Nat.succ fuel, input =>
    match parseValue fuel input with
    | none => none
    | some (v, r1) =>
      match skipWs r1 with
      | ',' :: r2 =>
        match parseItems fuel r2 with
        | none => none
        | some (xs, r3) => some (v :: xs, r3)
      | ']' :: r2 => some ([v], r2)
      | _ => none

end

/-- Model of `JSON.parse`: parse one value and require only whitespace to remain. -/
def jsonParse (s : List Char) : Option Json :=
  match parseValue (s.length + 1) s with
  | none => none
  | some (v, rest) => if skipWs rest = [] then some v else none

/-- JavaScript truthiness of a JSON value: `null`, `false`, numeric zero and
the empty string are falsy; objects and arrays are truthy. -/
def truthy : Json → Bool
  | Json.null => false
  | Json.bool b => b
  | Json.num raw => raw.data.any (fun c => c.isDigit ∧ c ≠ '0')
  | Json.str s => ¬ s.data.isEmpty
  | Json.arr _ => true
  | Json.obj _ => true

/-- JavaScript property access `obj.key` on a JSON value: `undefined`
(modelled `none`) unless the value is an object with that key. -/
def getField (j : Json) (key : String) : Option Json :=
  match j with
  | Json.obj fs =>
    match fs.find? (fun f => f.1 == key) with
    | some f => some f.2
    | none => none
  | _ => none

/-! ### Ollama line decoder (v0.2 `sendMessageStream`)

Each network read is handled in isolation: the chunk text is split on
newlines, blank lines are dropped, and every line is fed to `JSON.parse`;
a line failing to parse is logged and skipped.  A parsed record with a
truthy `message.content` fires `onChunk`; a truthy `done` fires
`onComplete` and stops the read loop.  There is no carry-over buffer
between reads. -/

/-- Callback firings observable from the v0.2 decoder.  `errorEvt` is the
`onError` callback, fired only by the outer network catch — never by the
record parse loop. -/
inductive OllamaEvent where
  | chunk (content : Json)
  | complete
  | errorEvt (msg : String)

/-- JavaScript `chunk.split` on a newline, keeping empty segments as JavaScript does. -/
def splitOnNl : List Char → List (List Char)
  | [] => [[]]
  | '\n' :: rest => [] :: splitOnNl rest
  | c :: rest =>
    match splitOnNl rest with
    | [] => [[c]]
    | l :: ls => (c :: l) :: ls

/-- JavaScript `line.trim()` is falsy exactly when the line is all whitespace. -/
def isBlank (l : List Char) : Bool := l.all isWsChar

/-- Process one parsed record: emit `onChunk` for a truthy
`data.message?.content`, and report whether `data.done` is truthy. -/
def ollamaRecordEvents (data : Json) : List OllamaEvent × Bool :=
  let contentEvt :=
    match (getField data "message").bind (fun m => getField m "content") with
    | some c => if truthy c then [OllamaEvent.chunk c] else []
    | none => []
  let isDone :=
    match getField data "done" with
    | some d => truthy d
    | none => false
  (contentEvt ++ (if isDone then [OllamaEvent.complete] else []), isDone)

/-- The per-read record loop: parse each line, skipping lines that fail to
parse; a truthy `done` fires `onComplete` and returns early. -/
def processLines : List (List Char) → List OllamaEvent × Bool
  | [] => ([], false)
  | l :: rest =>
    match jsonParse l with
    | none => processLines rest
    | some data =>
      let (evts, stop) := ollamaRecordEvents data
      if stop then (evts, true)
      else
        let (evts2, stop2) := processLines rest
        (evts ++ evts2, stop2)

/-- Handling of one network read: split on newlines, drop blank lines, run
the record loop.  No state is carried between reads. -/
def ollamaFeed (chunkText : List Char) : List OllamaEvent × Bool :=
  processLines ((splitOnNl chunkText).filter (fun l => ¬ isBlank l))

/-- The v0.2 read loop over a whole stream of reads: process each read in
isolation; a truthy `done` record returns early; when the reader reports
end of stream, `onComplete` fires. -/
def ollamaRun : List (List Char) → List OllamaEvent
  | [] => [OllamaEvent.complete]
  | chunk :: rest =>
    let (evts, stop) := ollamaFeed chunk
    if stop then evts else evts ++ ollamaRun rest

/-! ### SSE chunk decoder (v0.5 client `sendMessageStream`)

This decoder keeps a carry-over buffer: each read is appended to the
buffer, the buffer is split on the blank-line record delimiter, the final
(possibly incomplete) piece becomes the new buffer, and every complete
piece is parsed as an SSE event and dispatched. -/

/-- Find the leftmost occurrence of the `"\n\n"` record delimiter,
returning the text before it and the text after it. -/
def findDelim : List Char → Option (List Char × List Char)
  | [] => none
  | [_] => none
  | a :: b :: rest =>
    if a = '\n' ∧ b = '\n' then some ([], rest)
    else
      match findDelim (b :: rest) with
      | none => none
      | some (p, q) => some (a :: p, q)

/-- Fueled worker for the buffer splitter; each delimiter found strictly
shrinks the remaining input, so `length + 1` fuel always suffices. -/
def splitSegsF : Nat → List Char → List (List Char) × List Char
  | 0, l => ([], l)
  | Nat.succ fuel, l =>
    match findDelim l with
    | none => ([], l)
    | some (pre, post) =>
      let r := splitSegsF fuel post
      (pre :: r.1, r.2)

/-- JavaScript `buffer.split` on the blank-line delimiter with the last piece removed: the complete
delimiter-terminated segments, and the trailing incomplete remainder that
becomes the next buffer. -/
def splitSegs (l : List Char) : List (List Char) × List Char :=
  splitSegsF (l.length + 1) l

/-- JavaScript `s.trim()`: strip leading and trailing whitespace. -/
def jsTrim (l : List Char) : List Char :=
  ((l.dropWhile isWsChar).reverse.dropWhile isWsChar).reverse

/-- JavaScript `line.startsWith(p)`. -/
def startsWithStr (p : String) (l : List Char) : Bool :=
  l.take p.length == p.data

/-- The `data` field of a parsed SSE event: the JSON value when
`JSON.parse` succeeds, otherwise the raw text. -/
inductive SSEData where
  | json (j : Json)
  | raw (s : String)

/-- A parsed SSE event: the event name and its data payload. -/
structure SSEMessage where
  event : String
  data : SSEData

/-- Function `parseSSEEvent` from the v0.5 client: trim the record, split it on
newlines, take the last `event:` and `data:` lines, return `null` when no
event name was seen, and fall back to the raw data text when `JSON.parse`
fails. -/
def parseSSEEvent (record : List Char) : Option SSEMessage :=
  let lines := splitOnNl (jsTrim record)
  let acc := lines.foldl
    (fun (acc : String × List Char) line =>
      if startsWithStr "event:" line then (String.mk (jsTrim (line.drop 6)), acc.2)
      else if startsWithStr "data:" line then (acc.1, jsTrim (line.drop 5))
      else acc)
    ("", [])
  if acc.1 = "" then none
  else
    match jsonParse acc.2 with
    | some j => some ⟨acc.1, SSEData.json j⟩
    | none => some ⟨acc.1, SSEData.raw (String.mk acc.2)⟩

/-- Callback firings observable from the v0.5 client loop. -/
inductive CEvt where
  | sessionCreated (v : Json)
  | chunk (v : Json)
  | complete
  | errorEvt (v : Json)

/-- JavaScript property access on the SSE data payload: `undefined` when
the payload is a raw string. -/
def dataProp (d : SSEData) (k : String) : Option Json :=
  match d with
  | SSEData.json j => getField j k
  | SSEData.raw _ => none

/-- JavaScript `v || dflt`: the default replaces a missing or falsy value. -/
def jsOrDefault (v : Option Json) (dflt : Json) : Json :=
  match v with
  | some j => if truthy j then j else dflt
  | none => dflt

/-- Dispatch one complete record through the client `switch`: `session`
fires `onSessionCreated` for a truthy session id, `message` fires
`onChunk`, `done` and `error` fire their callbacks and stop the loop;
an unparsable record (`parseSSEEvent` returning `null`) is skipped. -/
def dispatchSeg (seg : List Char) : List CEvt × Bool :=
  match parseSSEEvent seg with
  | none => ([], false)
  | some m =>
    if m.event = "session" then
      (match dataProp m.data "sessionId" with
       | some v => if truthy v then [CEvt.sessionCreated v] else []
       | none => [], false)
    else if m.event = "message" then
      ([CEvt.chunk (jsOrDefault (dataProp m.data "content") (Json.str ""))], false)
    else if m.event = "done" then
      ([CEvt.complete], true)
    else if m.event = "error" then
      ([CEvt.errorEvt (jsOrDefault (dataProp m.data "error") (Json.str "未知错误"))], true)
    else ([], false)

/-- Dispatch a sequence of complete records, stopping at the first
terminal one as the client's `return` statements do. -/
def dispatchSegs : List (List Char) → List CEvt × Bool
  | [] => ([], false)
  | s :: rest =>
    let (e, stop) := dispatchSeg s
    if stop then (e, true)
    else
      let (es, st) := dispatchSegs rest
      (e ++ es, st)

/-- The v0.5 client read loop: append each read to the buffer, split off
the complete records, keep the remainder, dispatch the records, and stop
early on a terminal event. -/
def sseLoop : List Char → List (List Char) → List CEvt
  | _, [] => []
  | buf, c :: cs =>
    let (segs, buf2) := splitSegs (buf ++ c)
    let (evts, stop) := dispatchSegs segs
    if stop then evts else evts ++ sseLoop buf2 cs

/-- All complete records produced over a run of reads. -/
def segsAll : List Char → List (List Char) → List (List Char)
  | _, [] => []
  | buf, c :: cs =>
    (splitSegs (buf ++ c)).1 ++ segsAll (splitSegs (buf ++ c)).2 cs

/-- Left brace character, for building wire-format samples. -/
def lbraceChar : Char := Char.ofNat 123

/-- Right brace character, for building wire-format samples. -/
def rbraceChar : Char := Char.ofNat 125

/-- A complete Ollama stream record carrying the content `"hi"`. -/
def ollamaSampleRecord : List Char :=
  lbraceChar :: "\"done\":false,\"message\":".data
    ++ lbraceChar :: "\"role\":\"assistant\",\"content\":\"hi\"".data
    ++ [rbraceChar, rbraceChar]

/-! ### Server chat service (`ChatService.sendMessageStream`)

The v0.5 server turn pipeline: look up the provider configuration (HTTP
400 when missing), look up the session when an id was supplied and create
one when none was found, append the user message, query the first 20
messages of the session in ascending creation order, write the `session`
SSE event, call the provider adapter with the queried history, forward
each content increment as a `message` event while accumulating the full
response, and on completion persist the assistant message before writing
`done`; on a stream error write `error` and end without persisting.

The function is sequential; its `await` points are the atomicity
boundaries.  We split it at the boundary after the user-message insert
(`sendMessagePhase1` / `sendMessagePhase2`) so that schedules in which a
second turn runs inside that gap can be expressed. -/

/-- A persisted message row (Prisma `Message`). -/
structure DbMessage where
  sessionId : String
  role : String
  content : String
  responseTime : Option Nat
deriving DecidableEq, Repr

/-- A persisted session row (Prisma `ChatSession`). -/
structure DbSession where
  id : String
  userId : String
  title : String
  provider : String
  model : String
  mode : String
deriving DecidableEq, Repr

/-- The database state: sessions, and messages in creation order (list
order is `createdAt` ascending). -/
structure Store where
  sessions : List DbSession
  messages : List DbMessage
deriving DecidableEq, Repr

/-- Prisma session lookup by id, `chatSession.findUnique`. -/
def Store.findSession (st : Store) (sid : String) : Option DbSession :=
  st.sessions.find? (fun s => s.id == sid)

/-- The messages of one session in ascending creation order. -/
def Store.messagesOf (st : Store) (sid : String) : List DbMessage :=
  st.messages.filter (fun m => m.sessionId == sid)

/-- The request body of a turn (`SendMessageInput`). -/
structure SendMessageInput where
  userId : String
  sessionId : Option String
  message : String
  provider : String
  model : String
  mode : Option String
deriving DecidableEq, Repr

/-- A decrypted provider configuration as returned by
`providerService.getConfigWithKey`. -/
structure ProviderConfig where
  apiKey : String
  baseUrl : String
deriving DecidableEq, Repr

/-- The environment of one turn: the provider configurations visible to
the service, and the id the database will assign to a newly created
session. -/
structure Env where
  configs : List (String × String × ProviderConfig)
  newSessionId : String
deriving DecidableEq, Repr

/-- Lookup `providerService.getConfigWithKey(userId, provider)`. -/
def lookupConfig (env : Env) (userId provider : String) : Option ProviderConfig :=
  (env.configs.find? (fun e => e.1 == userId ∧ e.2.1 == provider)).map (fun e => e.2.2)

/-- The behavior of the upstream adapter stream for this turn: the content
increments delivered through `onChunk`, then either `onComplete` or
`onError`. -/
inductive Upstream where
  | success (chunks : List String)
  | failure (chunks : List String) (errMsg : String)
deriving DecidableEq, Repr

/-- One SSE event written to the client response. -/
inductive SEvent where
  | session (sessionId : String)
  | message (content : String)
  | done
  | error (msg : String)
deriving DecidableEq, Repr

/-- One observable step of the turn, in execution order: store operations,
the adapter call (with the context forwarded to it), client writes, and
closing the response. -/
inductive Action where
  | httpError (status : Nat) (msg : String)
  | createSession (s : DbSession)
  | appendMessage (m : DbMessage)
  | queryHistory (sid : String)
  | adapterCall (context : List (String × String))
  | write (e : SEvent)
  | endResponse
deriving DecidableEq, Repr

/-- Whether an action is a session creation. -/
def Action.isCreate : Action → Bool
  | Action.createSession _ => true
  | _ => false

/-- JavaScript `message.slice(0, 50) || '新对话'`. -/
def jsTitle (m : String) : String :=
  if m = "" then "新对话" else String.mk (m.data.take 50)

/-- Everything the rest of the turn keeps from its first phase. -/
structure TurnLocals where
  session : DbSession
deriving DecidableEq, Repr

/-- The session lookup: `findUnique` when a session id was supplied, else null. -/
def sessionLookup (input : SendMessageInput) (st : Store) : Option DbSession :=
  match input.sessionId with
  | some sid => st.findSession sid
  | none => none

/-- Phase 1 of `sendMessageStream`, through the user-message insert:
config lookup (400 on missing), session lookup/creation, and the
synchronous append of the user message — all before any upstream call. -/
def sendMessagePhase1 (env : Env) (input : SendMessageInput) (st : Store) :
    Store × List Action × Option TurnLocals :=
  match lookupConfig env input.userId input.provider with
  | none => (st, [Action.httpError 400 "未配置该供应商"], none)
  | some _ =>
    match sessionLookup input st with
    | some s =>
      let userMsg : DbMessage := ⟨s.id, "user", input.message, none⟩
      (⟨st.sessions, st.messages ++ [userMsg]⟩,
       [Action.appendMessage userMsg], some ⟨s⟩)
    | none =>
      let s : DbSession :=
        ⟨env.newSessionId, input.userId, jsTitle input.message,
         input.provider, input.model, input.mode.getD "normal"⟩
      let userMsg : DbMessage := ⟨s.id, "user", input.message, none⟩
      (⟨st.sessions ++ [s], st.messages ++ [userMsg]⟩,
       [Action.createSession s, Action.appendMessage userMsg], some ⟨s⟩)

/-- Phase 2 of `sendMessageStream`: query the first 20 messages of the
session in ascending creation order, write the `session` event, call the
adapter with that history, forward each increment, and commit-then-`done`
on completion or `error`-without-commit on failure.  `elapsed` models
`Date.now() - startTime`. -/
def sendMessagePhase2 (loc : TurnLocals) (up : Upstream) (elapsed : Nat)
    (st : Store) : Store × List Action :=
  let hist := (st.messagesOf loc.session.id).take 20
  let ctx := hist.map (fun m => (m.role, m.content))
  let head := [Action.queryHistory loc.session.id,
               Action.write (SEvent.session loc.session.id),
               Action.adapterCall ctx]
  match up with
  | Upstream.success chunks =>
    let full := String.join chunks
    let assistantMsg : DbMessage := ⟨loc.session.id, "assistant", full, some elapsed⟩
    (⟨st.sessions, st.messages ++ [assistantMsg]⟩,
     head ++ chunks.map (fun c => Action.write (SEvent.message c))
       ++ [Action.appendMessage assistantMsg, Action.write SEvent.done,
           Action.endResponse])
  | Upstream.failure chunks err =>
    (st,
     head ++ chunks.map (fun c => Action.write (SEvent.message c))
       ++ [Action.write (SEvent.error err), Action.endResponse])

/-- The whole turn: phase 1, and phase 2 unless phase 1 already responded
with an HTTP error. -/
def runTurn (env : Env) (input : SendMessageInput) (up : Upstream)
    (elapsed : Nat) (st : Store) : Store × List Action :=
  match sendMessagePhase1 env input st with
  | (st1, acts, none) => (st1, acts)
  | (st1, acts, some loc) =>
    let r := sendMessagePhase2 loc up elapsed st1
    (r.1, acts ++ r.2)

/-- The SSE events written to the client, in order. -/
def eventsOf (acts : List Action) : List SEvent :=
  acts.filterMap (fun a => match a with | Action.write e => some e | _ => none)

/-- The first context handed to the provider adapter during a turn, if
any. -/
def forwardedContext (env : Env) (input : SendMessageInput) (up : Upstream)
    (elapsed : Nat) (st : Store) : Option (List (String × String)) :=
  ((runTurn env input up elapsed st).2.filterMap
    (fun a => match a with | Action.adapterCall c => some c | _ => none)).head?

/-- Two turns on one service with the second arriving while the first is
suspended at the `await` after its user-message insert: the second turn
runs to completion inside that gap, then the first resumes.  Returns the
final store and each turn's action trace. -/
def interleavedRun (env1 env2 : Env) (in1 in2 : SendMessageInput)
    (up1 up2 : Upstream) (e1 e2 : Nat) (st : Store) :
    Store × List Action × List Action :=
  match sendMessagePhase1 env1 in1 st with
  | (st1, acts1, none) =>
    let r2 := runTurn env2 in2 up2 e2 st1
    (r2.1, acts1, r2.2)
  | (st1, acts1, some loc1) =>
    let r2 := runTurn env2 in2 up2 e2 st1
    let r1b := sendMessagePhase2 loc1 up1 e1 r2.1
    (r1b.1, acts1 ++ r1b.2, r2.2)

/-! ### Concrete sample data for witnesses and counterexamples -/

/-- A sample decrypted provider configuration. -/
def cfgSample : ProviderConfig := ⟨"sk-key", "http://localhost"⟩

/-- An environment in which user `u1` has configured provider `openai`,
and the database will assign id `NEW1` to a created session. -/
def envSample : Env := ⟨[("u1", "openai", cfgSample)], "NEW1"⟩

/-- An existing session `S1` owned by `u1`. -/
def sessSample : DbSession := ⟨"S1", "u1", "t", "openai", "gpt", "normal"⟩

/-- An empty store. -/
def storeEmpty : Store := ⟨[], []⟩

/-- A store holding session `S1` and no messages. -/
def storeWithS1 : Store := ⟨[sessSample], []⟩

/-- A turn request addressed to session `S1`. -/
def inputS1 : SendMessageInput := ⟨"u1", some "S1", "hi", "openai", "gpt", none⟩

/-- A second turn request addressed to session `S1`. -/
def inputS1b : SendMessageInput := ⟨"u1", some "S1", "second", "openai", "gpt", none⟩

/-- The interleaved schedule: turn 2 (`inputS1b`) runs entirely inside
turn 1's suspension right after turn 1 committed its user message. -/
def interleavedSample : Store × List Action × List Action :=
  interleavedRun envSample envSample inputS1 inputS1b
    (Upstream.success ["A"]) (Upstream.success ["B"]) 1 2 storeWithS1

/-! ## Theorems -/

/-! ### Splitter lemmas -/

theorem findDelim_append (x y pre post : List Char)
    (h : findDelim x = some (pre, post)) :
    findDelim (x ++ y) = some (pre, post ++ y) := by
  induction x generalizing pre post with
  | nil => simp [findDelim] at h
  | cons a rest ih =>
    cases rest with
    | nil => simp [findDelim] at h
    | cons b rest2 =>
      by_cases hab : a = '\n' ∧ b = '\n'
      · simp only [findDelim, if_pos hab, Option.some.injEq, Prod.mk.injEq] at h
        obtain ⟨h1, h2⟩ := h
        subst h1; subst h2
        simp [List.cons_append, findDelim, hab]
      · simp only [findDelim, if_neg hab] at h
        cases hfd : findDelim (b :: rest2) with
        | none => rw [hfd] at h; exact absurd h (by simp)
        | some pq =>
          rw [hfd] at h
          obtain ⟨p, q⟩ := pq
          simp only [Option.some.injEq, Prod.mk.injEq] at h
          have ih2 := ih p q hfd
          simp only [List.cons_append, findDelim, if_neg hab, List.append_eq]
          rw [show (b :: rest2) ++ y = b :: (rest2 ++ y) from rfl] at ih2
          rw [ih2, ← h.1, ← h.2]

theorem findDelim_length (x pre post : List Char)
    (h : findDelim x = some (pre, post)) : post.length < x.length := by
  induction x generalizing pre post with
  | nil => simp [findDelim] at h
  | cons a rest ih =>
    cases rest with
    | nil => simp [findDelim] at h
    | cons b rest2 =>
      by_cases hab : a = '\n' ∧ b = '\n'
      · simp only [findDelim, if_pos hab, Option.some.injEq, Prod.mk.injEq] at h
        rw [← h.2]
        simp only [List.length_cons]
        omega
      · simp only [findDelim, if_neg hab] at h
        cases hfd : findDelim (b :: rest2) with
        | none => rw [hfd] at h; exact absurd h (by simp)
        | some pq =>
          rw [hfd] at h
          obtain ⟨p, q⟩ := pq
          simp only [Option.some.injEq, Prod.mk.injEq] at h
          have hlt := ih p q hfd
          rw [← h.2]
          simp only [List.length_cons] at hlt ⊢
          omega

theorem splitSegsF_congr (fuel1 : Nat) : ∀ (fuel2 : Nat) (l : List Char),
    l.length < fuel1 → l.length < fuel2 →
    splitSegsF fuel1 l = splitSegsF fuel2 l := by
  induction fuel1 with
  | zero => intro fuel2 l h1 _; omega
  | succ f1 ih =>
    intro fuel2 l h1 h2
    cases fuel2 with
    | zero => omega
    | succ f2 =>
      cases hd : findDelim l with
      | none => simp only [splitSegsF, hd]
      | some pq =>
        obtain ⟨pre, post⟩ := pq
        have hlen := findDelim_length l pre post hd
        simp only [splitSegsF, hd]
        rw [ih f2 post (by omega) (by omega)]

theorem splitSegs_of_none {l : List Char} (h : findDelim l = none) :
    splitSegs l = ([], l) := by
  simp [splitSegs, splitSegsF, h]

theorem splitSegs_of_some {l pre post : List Char}
    (h : findDelim l = some (pre, post)) :
    splitSegs l = (pre :: (splitSegs post).1, (splitSegs post).2) := by
  have hlen := findDelim_length l pre post h
  simp only [splitSegs, splitSegsF, h]
  rw [splitSegsF_congr l.length (post.length + 1) post (by omega) (by omega)]
  rfl

theorem splitSegs_rem_aux (n : Nat) : ∀ l : List Char, l.length ≤ n →
    findDelim (splitSegs l).2 = none := by
  induction n with
  | zero =>
    intro l hl
    have hnil : l = [] := List.eq_nil_of_length_eq_zero (by omega)
    subst hnil
    rfl
  | succ n ih =>
    intro l hl
    cases hd : findDelim l with
    | none => rw [splitSegs_of_none hd]; exact hd
    | some pq =>
      obtain ⟨pre, post⟩ := pq
      rw [splitSegs_of_some hd]
      exact ih post (by have := findDelim_length l pre post hd; omega)

/-- The remainder left by the splitter never contains a delimiter: it is
exactly the bytes after the last complete record. -/
theorem splitSegs_rem_noDelim (l : List Char) :
    findDelim (splitSegs l).2 = none :=
  splitSegs_rem_aux l.length l le_rfl

theorem splitSegs_append_aux (n : Nat) : ∀ x y : List Char, x.length ≤ n →
    splitSegs (x ++ y) =
      ((splitSegs x).1 ++ (splitSegs ((splitSegs x).2 ++ y)).1,
       (splitSegs ((splitSegs x).2 ++ y)).2) := by
  induction n with
  | zero =>
    intro x y hx
    have hnil : x = [] := List.eq_nil_of_length_eq_zero (by omega)
    subst hnil
    simp [show splitSegs ([] : List Char) = ([], []) from rfl]
  | succ n ih =>
    intro x y hx
    cases hd : findDelim x with
    | none =>
      rw [splitSegs_of_none hd]
      simp
    | some pq =>
      obtain ⟨pre, post⟩ := pq
      rw [splitSegs_of_some hd, splitSegs_of_some (findDelim_append x y pre post hd),
          ih post y (by have := findDelim_length x pre post hd; omega)]
      simp

/-- Splitting is compositional: splitting `x ++ y` yields the segments of
`x` followed by the segments of the remainder of `x` prepended to `y`.
This is the heart of chunk-boundary invariance. -/
theorem splitSegs_append (x y : List Char) :
    splitSegs (x ++ y) =
      ((splitSegs x).1 ++ (splitSegs ((splitSegs x).2 ++ y)).1,
       (splitSegs ((splitSegs x).2 ++ y)).2) :=
  splitSegs_append_aux x.length x y le_rfl

theorem dispatchSegs_append (s1 s2 : List (List Char)) :
    dispatchSegs (s1 ++ s2) =
      (if (dispatchSegs s1).2 then dispatchSegs s1
       else ((dispatchSegs s1).1 ++ (dispatchSegs s2).1, (dispatchSegs s2).2)) := by
  induction s1 with
  | nil => simp [dispatchSegs]
  | cons s rest ih =>
    simp only [List.cons_append, dispatchSegs]
    cases hs : dispatchSeg s with
    | mk e stop =>
      cases stop with
      | true => simp
      | false =>
        cases hr : (dispatchSegs rest).2 with
        | true => simp [List.append_eq, ih, hr]
        | false => simp [List.append_eq, ih, hr, List.append_assoc]

theorem sseLoop_eq_dispatch (cs : List (List Char)) (buf : List Char) :
    sseLoop buf cs = (dispatchSegs (segsAll buf cs)).1 := by
  induction cs generalizing buf with
  | nil => simp [sseLoop, segsAll, dispatchSegs]
  | cons c rest ih =>
    simp only [sseLoop, segsAll, dispatchSegs_append, ih]
    cases hst : (dispatchSegs (splitSegs (buf ++ c)).1).2 with
    | true => simp [hst]
    | false => simp [hst]

theorem segsAll_join (cs : List (List Char)) (buf : List Char)
    (hbuf : findDelim buf = none) :
    segsAll buf cs = (splitSegs (buf ++ cs.flatten)).1 := by
  induction cs generalizing buf with
  | nil => simp [segsAll, splitSegs_of_none hbuf]
  | cons c rest ih =>
    have h1 : buf ++ (c :: rest).flatten = (buf ++ c) ++ rest.flatten := by
      simp [List.flatten_cons, List.append_assoc]
    simp only [segsAll, h1, splitSegs_append (buf ++ c) rest.flatten,
      ih (splitSegs (buf ++ c)).2 (splitSegs_rem_noDelim _)]

/-! ### Claim C2 — context assembler window -/

/-- C2 — counterexample.  The claim says a history of length 1 with window
size 0 assembles to length `min(1, 0) + 1 = 1` (only the system message);
`getContext` actually returns length 2, because `slice(-0)` is `slice(0)`
and keeps the whole history. -/
theorem getContext_window_cex :
    ¬ ((getContext [{ id := "1", role := "user", content := "hi" }]
          { id := "m", name := "m", systemPrompt := "sys", contextLength := 0 }).length
        = min 1 0 + 1) := by decide

/-- C2 — amended.  `getContext` prepends the system message and appends a
suffix of the history: for window size `w > 0` the result has length
`min(|H|, w) + 1`; for `w = 0` the result is the system message followed
by ALL of the history (length `|H| + 1`), because JavaScript `slice(-0)`
returns the whole array. -/
theorem getContext_window_spec (H : List CMsg) (M : Mode) :
    (getContext H M).length
        = (if M.contextLength = 0 then H.length else min H.length M.contextLength) + 1
    ∧ (getContext H M).head? = some (mkSystemMessage M)
    ∧ (∃ pre, H = pre ++ (getContext H M).tail)
    ∧ (M.contextLength = 0 → getContext H M = mkSystemMessage M :: H) := by
  refine ⟨?_, rfl, ?_, ?_⟩
  · simp only [getContext, jsSliceNeg, List.length_cons]
    split
    · rfl
    · simp only [List.length_drop]
      omega
  · simp only [getContext, jsSliceNeg, List.tail_cons]
    split
    · exact ⟨[], rfl⟩
    · exact ⟨H.take (H.length - M.contextLength), (List.take_append_drop _ H).symm⟩
  · intro h0
    simp [getContext, jsSliceNeg, h0]

/-- Witness for the amended C2 theorem at a concrete one-element history
and a window size of zero. -/
theorem getContext_window_spec_witness :
    getContext [{ id := "1", role := "user", content := "hi" }]
        { id := "m", name := "m", systemPrompt := "sys", contextLength := 0 }
      = mkSystemMessage { id := "m", name := "m", systemPrompt := "sys", contextLength := 0 }
          :: [{ id := "1", role := "user", content := "hi" }] :=
  (getContext_window_spec _ _).2.2.2 rfl

/-! ### Claim C3 — chunk-boundary invariance -/

/-- C3 — counterexample.  The v0.2 Ollama line decoder keeps no buffer
across reads: feeding one complete record whole emits its content event
and the completion, while feeding the same bytes split mid-record emits
nothing from either piece — the event sequences differ, so decoding is not
chunk-boundary invariant. -/
theorem ollama_split_cex :
    ollamaRun [ollamaSampleRecord]
      ≠ ollamaRun [ollamaSampleRecord.take 20, ollamaSampleRecord.drop 20] :=
  fun h => absurd (congrArg List.length h) (by decide)

/-- C3 — amended.  The v0.5 SSE client decoder IS chunk-boundary
invariant: it buffers unconsumed bytes across reads and emits one event
per complete delimiter-terminated record, so any partition of the byte
sequence yields the same client events as feeding it whole.  (The v0.2
Ollama line decoder decodes each read in isolation and has no such
property.) -/
theorem sse_boundary_invariant (chunks : List (List Char)) :
    sseLoop [] chunks = sseLoop [] [chunks.flatten] := by
  rw [sseLoop_eq_dispatch chunks [], sseLoop_eq_dispatch [chunks.flatten] [],
    segsAll_join chunks [] rfl, segsAll_join [chunks.flatten] [] rfl]
  simp

/-! ### Claim C9 — malformed records are skipped -/

/-- Events produced for a single parsed record are content chunks or the
completion signal. -/
theorem mem_ollamaRecordEvents (data : Json) (e : OllamaEvent)
    (he : e ∈ (ollamaRecordEvents data).1) :
    e = OllamaEvent.complete ∨ ∃ c, e = OllamaEvent.chunk c := by
  simp only [ollamaRecordEvents, List.mem_append] at he
  rcases he with he | he
  · rcases hf : (getField data "message").bind (fun m => getField m "content") with _ | c
    · rw [hf] at he
      simp at he
    · rw [hf] at he
      by_cases ht : truthy c
      · simp only [ht, if_true, List.mem_singleton] at he
        exact Or.inr ⟨c, he⟩
      · simp [ht] at he
  · split at he
    · simp only [List.mem_singleton] at he
      exact Or.inl he
    · simp at he

/-- Every event the Ollama record loop emits is a content chunk or the
completion signal; the loop never fires `onError`. -/
theorem processLines_no_error (ls : List (List Char)) :
    ∀ e ∈ (processLines ls).1, ∀ msg, e ≠ OllamaEvent.errorEvt msg := by
  induction ls with
  | nil => intro e he; simp [processLines] at he
  | cons l rest ih =>
    intro e he msg
    simp only [processLines] at he
    cases hp : jsonParse l with
    | none =>
      rw [hp] at he
      exact ih e he msg
    | some data =>
      rw [hp] at he
      by_cases hstop : (ollamaRecordEvents data).2
      · simp only [hstop, if_true] at he
        rcases mem_ollamaRecordEvents data e he with h | ⟨c, h⟩ <;> simp [h]
      · simp only [hstop] at he
        simp only [Bool.false_eq_true, if_false, List.mem_append] at he
        rcases he with he | he
        · rcases mem_ollamaRecordEvents data e he with h | ⟨c, h⟩ <;> simp [h]
        · exact ih e he msg

/-- C9 — confirmed.  A record line that fails to parse is skipped and the
loop continues with the remaining records: the emitted events are exactly
those of the stream without the malformed record, and the loop never fires
the `onError` callback, so the failure is never surfaced. -/
theorem malformed_record_skipped (ls1 ls2 : List (List Char)) (bad : List Char)
    (hbad : jsonParse bad = none) :
    processLines (ls1 ++ bad :: ls2) = processLines (ls1 ++ ls2)
    ∧ ∀ e ∈ (processLines (ls1 ++ bad :: ls2)).1,
        ∀ msg, e ≠ OllamaEvent.errorEvt msg := by
  refine ⟨?_, processLines_no_error _⟩
  induction ls1 with
  | nil => simp [processLines, hbad]
  | cons l rest ih =>
    simp only [List.cons_append, processLines, List.append_eq]
    cases hp : jsonParse l with
    | none => exact ih
    | some data => rw [ih]

/-- Witness for C9: a concrete three-line read in which the middle line is
not JSON; the decoder emits the same events as without it. -/
theorem malformed_record_skipped_witness :
    (processLines (["\"ok\"".data] ++ "not json".data :: ["\"tail\"".data])
        = processLines (["\"ok\"".data] ++ ["\"tail\"".data]))
    ∧ ∀ e ∈ (processLines (["\"ok\"".data] ++ "not json".data :: ["\"tail\"".data])).1,
        ∀ msg, e ≠ OllamaEvent.errorEvt msg :=
  malformed_record_skipped ["\"ok\"".data] ["\"tail\"".data] "not json".data rfl

/-! ### Relay helper lemmas -/

/-- Characterization of a successful first phase: the store gains exactly
the user message (and the created session when the lookup found none), and
the trace is the session creation (when it happened) followed by the
user-message append. -/
theorem phase1_char (env : Env) (input : SendMessageInput) (st st1 : Store)
    (acts1 : List Action) (loc : TurnLocals)
    (h1 : sendMessagePhase1 env input st = (st1, acts1, some loc)) :
    st1 = ⟨st.sessions ++ (if sessionLookup input st = none then [loc.session] else []),
           st.messages ++ [⟨loc.session.id, "user", input.message, none⟩]⟩
    ∧ acts1 = (if sessionLookup input st = none
                then [Action.createSession loc.session] else [])
        ++ [Action.appendMessage ⟨loc.session.id, "user", input.message, none⟩] := by
  unfold sendMessagePhase1 at h1
  cases hc : lookupConfig env input.userId input.provider with
  | none => rw [hc] at h1; exact absurd h1 (by simp)
  | some cfg =>
    rw [hc] at h1
    cases hf : sessionLookup input st with
    | some s =>
      rw [hf] at h1
      simp only [Prod.mk.injEq, Option.some.injEq] at h1
      obtain ⟨hst, hacts, hloc⟩ := h1
      subst hloc
      constructor
      · rw [← hst]; simp [hf]
      · rw [← hacts]; simp [hf]
    | none =>
      rw [hf] at h1
      simp only [Prod.mk.injEq, Option.some.injEq] at h1
      obtain ⟨hst, hacts, hloc⟩ := h1
      subst hloc
      constructor
      · rw [← hst]; simp [hf]
      · rw [← hacts]; simp [hf]

/-- Phase 1 writes nothing to the client. -/
theorem phase1_eventsOf (env : Env) (input : SendMessageInput) (st st1 : Store)
    (acts1 : List Action) (loc : TurnLocals)
    (h1 : sendMessagePhase1 env input st = (st1, acts1, some loc)) :
    eventsOf acts1 = [] := by
  obtain ⟨-, hacts⟩ := phase1_char env input st st1 acts1 loc h1
  subst hacts
  split <;> simp [eventsOf]

/-- Forwarding the increments writes exactly the `message` events. -/
theorem filterMap_write_message (chunks : List String) :
    List.filterMap (fun a => match a with | Action.write e => some e | _ => none)
      (chunks.map (fun c => Action.write (SEvent.message c)))
      = chunks.map SEvent.message := by
  induction chunks with
  | nil => rfl
  | cons c cs ihc => simp [List.filterMap_cons, ihc]

/-! ### Claim C1 — `done` only after the assistant commit -/

/-- C1 — confirmed.  On a normally completing turn the trace ends with the
assistant-message commit of the full response buffer, then the `done`
write, then closing the response; no `done` write occurs anywhere before
the commit.  (`await prisma.message.create` precedes `res.write('done')`
in `onComplete`.) -/
theorem done_after_commit (env : Env) (input : SendMessageInput)
    (chunks : List String) (elapsed : Nat) (st st1 : Store)
    (acts1 : List Action) (loc : TurnLocals)
    (h1 : sendMessagePhase1 env input st = (st1, acts1, some loc)) :
    ∃ pre,
      (runTurn env input (Upstream.success chunks) elapsed st).2
        = pre ++ [Action.appendMessage
                    ⟨loc.session.id, "assistant", String.join chunks, some elapsed⟩,
                  Action.write SEvent.done, Action.endResponse]
      ∧ Action.write SEvent.done ∉ pre := by
  obtain ⟨-, hacts⟩ := phase1_char env input st st1 acts1 loc h1
  refine ⟨acts1
      ++ [Action.queryHistory loc.session.id,
          Action.write (SEvent.session loc.session.id),
          Action.adapterCall (((st1.messagesOf loc.session.id).take 20).map
            (fun m => (m.role, m.content)))]
      ++ chunks.map (fun c => Action.write (SEvent.message c)), ?_, ?_⟩
  · simp only [runTurn, h1, sendMessagePhase2]
    simp [List.append_assoc]
  · intro hmem
    simp only [List.mem_append, List.mem_cons, List.mem_map, List.not_mem_nil,
      List.mem_singleton] at hmem
    rcases hmem with (h | h) | h
    · subst hacts
      rcases List.mem_append.mp h with h2 | h2
      · split at h2 <;> simp_all
      · simp at h2
    · simp at h
    · obtain ⟨c, -, hc⟩ := h
      simp at hc

/-- Witness for C1 at a concrete turn on the existing session `S1`. -/
theorem done_after_commit_witness :
    ∃ pre,
      (runTurn envSample inputS1 (Upstream.success ["Hel", "lo"]) 4 storeWithS1).2
        = pre ++ [Action.appendMessage ⟨"S1", "assistant", "Hello", some 4⟩,
                  Action.write SEvent.done, Action.endResponse]
      ∧ Action.write SEvent.done ∉ pre :=
  done_after_commit envSample inputS1 ["Hel", "lo"] 4 storeWithS1
    ⟨[sessSample], [⟨"S1", "user", "hi", none⟩]⟩
    [Action.appendMessage ⟨"S1", "user", "hi", none⟩] ⟨sessSample⟩ rfl

/-! ### Claim C5 — user message committed before any upstream call -/

/-- C5 — confirmed.  Every turn that reaches the adapter appended the user
message to the store first: the trace decomposes around the user-message
append, the prefix contains no adapter call, and the suffix contains the
adapter call. -/
theorem user_before_adapter (env : Env) (input : SendMessageInput)
    (up : Upstream) (elapsed : Nat) (st st1 : Store)
    (acts1 : List Action) (loc : TurnLocals)
    (h1 : sendMessagePhase1 env input st = (st1, acts1, some loc)) :
    ∃ pre suf,
      (runTurn env input up elapsed st).2
        = pre ++ Action.appendMessage ⟨loc.session.id, "user", input.message, none⟩ :: suf
      ∧ (∀ c, Action.adapterCall c ∉ pre)
      ∧ (∃ c, Action.adapterCall c ∈ suf) := by
  obtain ⟨-, hacts⟩ := phase1_char env input st st1 acts1 loc h1
  refine ⟨if sessionLookup input st = none
            then [Action.createSession loc.session] else [],
          (sendMessagePhase2 loc up elapsed st1).2, ?_, ?_, ?_⟩
  · simp only [runTurn, h1]
    rw [hacts]
    simp
  · intro c hc
    split at hc <;> simp at hc
  · refine ⟨((st1.messagesOf loc.session.id).take 20).map (fun m => (m.role, m.content)), ?_⟩
    cases up <;> simp [sendMessagePhase2]

/-- Witness for C5 at a concrete turn on the existing session `S1`. -/
theorem user_before_adapter_witness :
    ∃ pre suf,
      (runTurn envSample inputS1 (Upstream.success ["ok"]) 4 storeWithS1).2
        = pre ++ Action.appendMessage ⟨"S1", "user", "hi", none⟩ :: suf
      ∧ (∀ c, Action.adapterCall c ∉ pre)
      ∧ (∃ c, Action.adapterCall c ∈ suf) :=
  user_before_adapter envSample inputS1 (Upstream.success ["ok"]) 4 storeWithS1
    ⟨[sessSample], [⟨"S1", "user", "hi", none⟩]⟩
    [Action.appendMessage ⟨"S1", "user", "hi", none⟩] ⟨sessSample⟩ rfl

/-! ### Claim C4 — behavior on an upstream stream error -/

/-- C4 — counterexample.  A turn whose upstream stream fails after the
increment `"Hel"` leaves NO assistant message in the store — the partial
buffer is discarded, not committed — while the error event is still
propagated to the client. -/
theorem onError_discards_cex :
    (∀ m ∈ (runTurn envSample inputS1 (Upstream.failure ["Hel"] "boom") 7
              storeWithS1).1.messages,
        m.role ≠ "assistant")
    ∧ eventsOf (runTurn envSample inputS1 (Upstream.failure ["Hel"] "boom") 7
          storeWithS1).2
        = [SEvent.session "S1", SEvent.message "Hel", SEvent.error "boom"] := by
  decide

/-- C4 — amended.  On an upstream stream error the relay forwards the
`error` event and closes the response WITHOUT committing the partial
response buffer: the store is exactly as phase 1 left it (only the user
message was persisted), and the client sees the increments followed by
`error`. -/
theorem onError_no_commit (env : Env) (input : SendMessageInput)
    (chunks : List String) (err : String) (elapsed : Nat) (st st1 : Store)
    (acts1 : List Action) (loc : TurnLocals)
    (h1 : sendMessagePhase1 env input st = (st1, acts1, some loc)) :
    (runTurn env input (Upstream.failure chunks err) elapsed st).1 = st1
    ∧ eventsOf (runTurn env input (Upstream.failure chunks err) elapsed st).2
        = SEvent.session loc.session.id
            :: chunks.map SEvent.message ++ [SEvent.error err]
    ∧ (⟨loc.session.id, "user", input.message, none⟩ : DbMessage) ∈ st1.messages := by
  obtain ⟨hst, -⟩ := phase1_char env input st st1 acts1 loc h1
  have hev := phase1_eventsOf env input st st1 acts1 loc h1
  refine ⟨?_, ?_, ?_⟩
  · simp [runTurn, h1, sendMessagePhase2]
  · simp only [runTurn, h1, sendMessagePhase2, eventsOf, List.filterMap_append,
      filterMap_write_message]
    simp only [eventsOf] at hev
    rw [hev]
    simp [List.filterMap_cons]
  · rw [hst]
    simp

/-- Witness for the amended C4 theorem at a concrete failing turn. -/
theorem onError_no_commit_witness :
    (runTurn envSample inputS1 (Upstream.failure ["Hel"] "boom") 7 storeWithS1).1
        = ⟨[sessSample], [⟨"S1", "user", "hi", none⟩]⟩
    ∧ eventsOf (runTurn envSample inputS1 (Upstream.failure ["Hel"] "boom") 7
          storeWithS1).2
        = SEvent.session "S1" :: ["Hel"].map SEvent.message ++ [SEvent.error "boom"]
    ∧ (⟨"S1", "user", "hi", none⟩ : DbMessage)
        ∈ (⟨[sessSample], [⟨"S1", "user", "hi", none⟩]⟩ : Store).messages :=
  onError_no_commit envSample inputS1 ["Hel"] "boom" 7 storeWithS1
    ⟨[sessSample], [⟨"S1", "user", "hi", none⟩]⟩
    [Action.appendMessage ⟨"S1", "user", "hi", none⟩] ⟨sessSample⟩ rfl

/-! ### Claim C7 — when a new session is created -/

/-- C7 — counterexample.  A request that DOES carry a session id, but one
that matches no stored session, still creates a new session — refuting
"a new Session is created if and only if the request carries no session
id". -/
theorem stale_session_cex :
    inputS1.sessionId = some "S1"
    ∧ storeEmpty.findSession "S1" = none
    ∧ ∃ s, Action.createSession s
        ∈ (runTurn envSample inputS1 (Upstream.success ["ok"]) 3 storeEmpty).2 := by
  refine ⟨rfl, rfl, ⟨"NEW1", "u1", "hi", "openai", "gpt", "normal"⟩, ?_⟩
  decide

/-- C7 — amended.  For a turn that passes the configuration check, a new
session is created exactly when the session lookup finds nothing: either
no session id was supplied, or the supplied id matches no stored
session. -/
theorem createSession_iff (env : Env) (input : SendMessageInput)
    (up : Upstream) (elapsed : Nat) (st : Store) (cfg : ProviderConfig)
    (hcfg : lookupConfig env input.userId input.provider = some cfg) :
    (∃ s, Action.createSession s ∈ (runTurn env input up elapsed st).2)
      ↔ sessionLookup input st = none := by
  cases hf : sessionLookup input st with
  | some s =>
    simp only [runTurn, sendMessagePhase1, hcfg, hf]
    constructor
    · rintro ⟨s2, hs2⟩
      rcases List.mem_append.mp hs2 with h | h
      · simp at h
      · cases up <;> simp [sendMessagePhase2] at h
    · intro h
      exact absurd h (by simp)
  | none =>
    constructor
    · intro _
      rfl
    · intro _
      refine ⟨⟨env.newSessionId, input.userId, jsTitle input.message,
              input.provider, input.model, input.mode.getD "normal"⟩, ?_⟩
      simp [runTurn, sendMessagePhase1, hcfg, hf]

/-- Witness for the amended C7 theorem: with no stored sessions the lookup
fails and a session is indeed created. -/
theorem createSession_iff_witness :
    (∃ s, Action.createSession s
        ∈ (runTurn envSample inputS1 (Upstream.success ["ok"]) 3 storeEmpty).2)
      ↔ sessionLookup inputS1 storeEmpty = none :=
  createSession_iff envSample inputS1 (Upstream.success ["ok"]) 3 storeEmpty
    cfgSample rfl

/-! ### Claim C8 — shape of the outbound event stream -/

/-- C8 — counterexample.  A turn on the EXISTING session `S1` creates no
session, yet its event stream still begins with a `session` event — the
`session` event is written unconditionally, not only for turns that
created a new session. -/
theorem session_event_existing_cex :
    sessionLookup inputS1 storeWithS1 = some sessSample
    ∧ (∀ a ∈ (runTurn envSample inputS1 (Upstream.success ["ok"]) 3 storeWithS1).2,
        a.isCreate = false)
    ∧ (eventsOf (runTurn envSample inputS1 (Upstream.success ["ok"]) 3
          storeWithS1).2).head?
        = some (SEvent.session "S1") := by
  decide

/-- C8 — amended.  On every turn that passes the configuration check, the
outbound stream is exactly one `session` event first — carrying the
session id whether the session is newly created or pre-existing — then one
`message` event per increment, then exactly one terminal event (`done` on
completion, `error` on failure). -/
theorem event_stream_shape (env : Env) (input : SendMessageInput)
    (up : Upstream) (elapsed : Nat) (st st1 : Store)
    (acts1 : List Action) (loc : TurnLocals)
    (h1 : sendMessagePhase1 env input st = (st1, acts1, some loc)) :
    eventsOf (runTurn env input up elapsed st).2
      = SEvent.session loc.session.id
          :: (match up with
              | Upstream.success cs => cs.map SEvent.message ++ [SEvent.done]
              | Upstream.failure cs e => cs.map SEvent.message ++ [SEvent.error e]) := by
  have hev := phase1_eventsOf env input st st1 acts1 loc h1
  simp only [eventsOf] at hev
  cases up with
  | success cs =>
    simp only [runTurn, h1, sendMessagePhase2, eventsOf, List.filterMap_append,
      filterMap_write_message]
    rw [hev]
    simp [List.filterMap_cons]
  | failure cs e =>
    simp only [runTurn, h1, sendMessagePhase2, eventsOf, List.filterMap_append,
      filterMap_write_message]
    rw [hev]
    simp [List.filterMap_cons]

/-- Witness for the amended C8 theorem at a concrete successful turn. -/
theorem event_stream_shape_witness :
    eventsOf (runTurn envSample inputS1 (Upstream.success ["ok"]) 3 storeWithS1).2
      = SEvent.session "S1" :: (["ok"].map SEvent.message ++ [SEvent.done]) :=
  event_stream_shape envSample inputS1 (Upstream.success ["ok"]) 3 storeWithS1
    ⟨[sessSample], [⟨"S1", "user", "hi", none⟩]⟩
    [Action.appendMessage ⟨"S1", "user", "hi", none⟩] ⟨sessSample⟩ rfl

/-! ### Claim C10 — the context forwarded to the adapter -/

/-- C10 — confirmed.  The context handed to the provider adapter is the
session's messages in ascending creation order truncated to the FIRST 20
(`orderBy createdAt asc, take 20` — the oldest 20, so once the session
exceeds 20 messages the newest ones, including the just-committed user
message, fall outside it); every entry comes from a stored message (no
system message is synthesized), and the request's mode is never
consulted. -/
theorem forwarded_context_take20 (env : Env) (input : SendMessageInput)
    (up : Upstream) (elapsed : Nat) (st st1 : Store)
    (acts1 : List Action) (loc : TurnLocals)
    (h1 : sendMessagePhase1 env input st = (st1, acts1, some loc)) :
    forwardedContext env input up elapsed st
      = some (((st1.messagesOf loc.session.id).take 20).map
          (fun m => (m.role, m.content)))
    ∧ (∀ rc ∈ ((st1.messagesOf loc.session.id).take 20).map
          (fun m => (m.role, m.content)),
        ∃ m2 ∈ st1.messages, rc = (m2.role, m2.content))
    ∧ ∀ mo : Option String,
        forwardedContext env { input with mode := mo } up elapsed st
          = forwardedContext env input up elapsed st := by
  obtain ⟨-, hacts⟩ := phase1_char env input st st1 acts1 loc h1
  refine ⟨?_, ?_, ?_⟩
  · simp only [forwardedContext, runTurn, h1, List.filterMap_append]
    have hacts1 : acts1.filterMap
        (fun a => match a with | Action.adapterCall c => some c | _ => none) = [] := by
      rw [hacts]
      split <;> simp
    rw [hacts1]
    cases up <;> simp [sendMessagePhase2, List.filterMap_cons, List.filterMap_append]
  · intro rc hrc
    obtain ⟨m, hm, hrc2⟩ := List.mem_map.mp hrc
    exact ⟨m, (List.mem_filter.mp (List.mem_of_mem_take hm)).1, hrc2.symm⟩
  · intro mo
    have hu : ({ input with mode := mo } : SendMessageInput).userId = input.userId := rfl
    have hp : ({ input with mode := mo } : SendMessageInput).provider = input.provider := rfl
    have hs : sessionLookup { input with mode := mo } st = sessionLookup input st := rfl
    simp only [forwardedContext, runTurn, sendMessagePhase1, hu, hp, hs]
    cases hc : lookupConfig env input.userId input.provider with
    | none => rfl
    | some cfg =>
      cases hf : sessionLookup input st with
      | some s =>
        cases up <;>
          simp [sendMessagePhase2, List.filterMap_cons, List.filterMap_append]
      | none =>
        cases up <;>
          simp [sendMessagePhase2, Store.messagesOf, List.filterMap_cons,
            List.filterMap_append]

/-- Witness for C10 at a concrete turn on the existing session `S1`. -/
theorem forwarded_context_take20_witness :
    forwardedContext envSample inputS1 (Upstream.success ["ok"]) 3 storeWithS1
      = some ((((⟨[sessSample], [⟨"S1", "user", "hi", none⟩]⟩ : Store).messagesOf
            "S1").take 20).map (fun m => (m.role, m.content)))
    ∧ (∀ rc ∈ (((⟨[sessSample], [⟨"S1", "user", "hi", none⟩]⟩ : Store).messagesOf
            "S1").take 20).map (fun m => (m.role, m.content)),
        ∃ m2 ∈ (⟨[sessSample], [⟨"S1", "user", "hi", none⟩]⟩ : Store).messages,
          rc = (m2.role, m2.content))
    ∧ ∀ mo : Option String,
        forwardedContext envSample { inputS1 with mode := mo }
            (Upstream.success ["ok"]) 3 storeWithS1
          = forwardedContext envSample inputS1 (Upstream.success ["ok"]) 3 storeWithS1 :=
  forwarded_context_take20 envSample inputS1 (Upstream.success ["ok"]) 3 storeWithS1
    ⟨[sessSample], [⟨"S1", "user", "hi", none⟩]⟩
    [Action.appendMessage ⟨"S1", "user", "hi", none⟩] ⟨sessSample⟩ rfl

/-! ### Claim C6 — no per-session admission control -/

/-- C6 — counterexample.  A second turn arriving for session `S1` while the
first turn is suspended right after committing its user message is NOT
rejected: it runs to completion (`session`, `message`, `done` — no error
of any kind), it mutates the store, and the final store interleaves the
two turns' messages (the second turn's user and assistant messages sit
between the first turn's user message and its assistant message). -/
theorem concurrent_turn_cex :
    eventsOf interleavedSample.2.2
        = [SEvent.session "S1", SEvent.message "B", SEvent.done]
    ∧ interleavedSample.1.messages
        = [⟨"S1", "user", "hi", none⟩, ⟨"S1", "user", "second", none⟩,
           ⟨"S1", "assistant", "B", some 2⟩, ⟨"S1", "assistant", "A", some 1⟩]
    ∧ Action.appendMessage ⟨"S1", "user", "second", none⟩ ∈ interleavedSample.2.2 := by
  decide

/-- C6 — amended.  The service performs no per-session admission control:
whenever a second turn for the same (or any) session arrives while the
first is suspended after its user-message commit, the second turn proceeds
normally — it emits `session`, its increments and `done`, never any error
— and its store writes interleave with the first turn's. -/
theorem concurrent_turn_interleaves (env1 env2 : Env)
    (in1 in2 : SendMessageInput) (up1 : Upstream) (cs2 : List String)
    (e1 e2 : Nat) (st st1 st2 : Store) (acts1 acts2 : List Action)
    (loc1 loc2 : TurnLocals)
    (h1 : sendMessagePhase1 env1 in1 st = (st1, acts1, some loc1))
    (h2 : sendMessagePhase1 env2 in2 st1 = (st2, acts2, some loc2)) :
    eventsOf (interleavedRun env1 env2 in1 in2 up1 (Upstream.success cs2)
        e1 e2 st).2.2
      = SEvent.session loc2.session.id :: cs2.map SEvent.message ++ [SEvent.done]
    ∧ (⟨loc2.session.id, "user", in2.message, none⟩ : DbMessage)
        ∈ (interleavedRun env1 env2 in1 in2 up1 (Upstream.success cs2)
            e1 e2 st).1.messages
    ∧ ∀ e ∈ eventsOf (interleavedRun env1 env2 in1 in2 up1 (Upstream.success cs2)
          e1 e2 st).2.2,
        ∀ msg, e ≠ SEvent.error msg := by
  have hev2 := phase1_eventsOf env2 in2 st1 st2 acts2 loc2 h2
  simp only [eventsOf] at hev2
  have hkey : (interleavedRun env1 env2 in1 in2 up1 (Upstream.success cs2)
      e1 e2 st).2.2
      = acts2 ++ (sendMessagePhase2 loc2 (Upstream.success cs2) e2 st2).2 := by
    simp [interleavedRun, h1, runTurn, h2]
  have hevents : eventsOf (interleavedRun env1 env2 in1 in2 up1
      (Upstream.success cs2) e1 e2 st).2.2
      = SEvent.session loc2.session.id :: cs2.map SEvent.message ++ [SEvent.done] := by
    rw [hkey]
    simp only [eventsOf, List.filterMap_append, sendMessagePhase2,
      filterMap_write_message]
    rw [hev2]
    simp [List.filterMap_cons]
  have hst2 := (phase1_char env2 in2 st1 st2 acts2 loc2 h2).1
  refine ⟨hevents, ?_, ?_⟩
  · have hstore : (interleavedRun env1 env2 in1 in2 up1 (Upstream.success cs2)
        e1 e2 st).1
        = (sendMessagePhase2 loc1 up1 e1
            (sendMessagePhase2 loc2 (Upstream.success cs2) e2 st2).1).1 := by
      simp [interleavedRun, h1, runTurn, h2]
    rw [hstore, hst2]
    cases up1 <;> simp [sendMessagePhase2]
  · intro e he msg
    rw [hevents] at he
    rcases List.mem_cons.mp he with h | h
    · simp [h]
    · rcases List.mem_append.mp h with h2 | h2
      · obtain ⟨c, -, hc⟩ := List.mem_map.mp h2
        simp [← hc]
      · simp only [List.mem_singleton] at h2
        simp [h2]

/-- Witness for the amended C6 theorem at the concrete interleaved
schedule on session `S1`. -/
theorem concurrent_turn_interleaves_witness :
    eventsOf (interleavedRun envSample envSample inputS1 inputS1b
        (Upstream.success ["A"]) (Upstream.success ["B"]) 1 2 storeWithS1).2.2
      = SEvent.session "S1" :: ["B"].map SEvent.message ++ [SEvent.done]
    ∧ (⟨"S1", "user", "second", none⟩ : DbMessage)
        ∈ (interleavedRun envSample envSample inputS1 inputS1b
            (Upstream.success ["A"]) (Upstream.success ["B"]) 1 2 storeWithS1).1.messages
    ∧ ∀ e ∈ eventsOf (interleavedRun envSample envSample inputS1 inputS1b
          (Upstream.success ["A"]) (Upstream.success ["B"]) 1 2 storeWithS1).2.2,
        ∀ msg, e ≠ SEvent.error msg :=
  concurrent_turn_interleaves envSample envSample inputS1 inputS1b
    (Upstream.success ["A"]) ["B"] 1 2 storeWithS1
    ⟨[sessSample], [⟨"S1", "user", "hi", none⟩]⟩
    ⟨[sessSample], [⟨"S1", "user", "hi", none⟩, ⟨"S1", "user", "second", none⟩]⟩
    [Action.appendMessage ⟨"S1", "user", "hi", none⟩]
    [Action.appendMessage ⟨"S1", "user", "second", none⟩]
    ⟨sessSample⟩ ⟨sessSample⟩ rfl rfl

end AiChat
